import Mathlib

/-!
# Verification of the `cac` batch audio-conversion engine

Shallow embedding of the repository's core (package `convert`: `dir.go`,
`utils.go`, and `ConvertFile`) in Lean 4.

Modelling conventions:
* Pure string/path computations (`path/filepath.Ext`, `Base`, `Join`/`Clean`,
  `strings.TrimSuffix` from the Go standard library, which the code calls) are
  implemented faithfully over `List Char`; Go operates on bytes, our model on
  characters, which coincide on ASCII inputs.
* External effects (`os.Rename`, `copyFile`, `text/template` rendering,
  `runCommand`, `os.Remove`) are collaborators outside the repository; their
  success/failure is an environment `FSEnv` supplied per file, and the
  filesystem mutations a call attempts are recorded as an `Effect` trace.
* The concurrent parts of `ConvertDir` are modelled two ways: the aggregate
  (counters and the collected-error list, whose increments commute, so a
  sequential fold over the walk entries computes the same final counts and the
  same error multiset as any interleaving) and, separately, a small-step
  scheduler for the semaphore-bounded worker pool.
-/

namespace Cac

/-! ## Go standard-library path helpers (external collaborators of the code) -/

/-- Model of Go `path/filepath.Ext`: scan the path from the right; stop at a
path separator; the extension is the suffix starting at the final dot in the
final element, `""` when there is none.  The first argument is the reversed
character list still to scan, the second the (forward-order) characters
already passed. -/
def extScan : List Char → List Char → List Char
  | [], _ => []
  | c :: rest, acc =>
    if c = '/' then []
    else if c = '.' then '.' :: acc
    else extScan rest (c :: acc)

/-- Model of Go `path/filepath.Ext`. -/
def goExt (s : String) : String := String.mk (extScan s.data.reverse [])

/-- Model of Go `path/filepath.Base` (unix, no volume names): empty path gives
`"."`, trailing separators are removed, everything up to and including the
last separator is removed, an all-separator path gives `"/"`. -/
def goBase (s : String) : String :=
  if s.data = [] then "."
  else
    let stripped := s.data.reverse.dropWhile (fun c => c = '/')
    if stripped = [] then "/"
    else String.mk (stripped.takeWhile (fun c => c != '/')).reverse

/-- Model of Go `strings.TrimSuffix`. -/
def trimSuffix (s suf : String) : String :=
  if suf.data.isSuffixOf s.data then
    String.mk (s.data.take (s.data.length - suf.data.length))
  else s

/-- Split a character list on `'/'` (Go `strings.Split(path, "/")`). -/
def splitSlash : List Char → List (List Char)
  | [] => [[]]
  | c :: rest =>
    if c = '/' then [] :: splitSlash rest
    else
      match splitSlash rest with
      | [] => [[c]]
      | h :: t => (c :: h) :: t

/-- One step of Go `path/filepath.Clean`'s element processing: drop empty and
`"."` elements, let `".."` pop the previous element (kept at the start of a
relative path, dropped at the root of an absolute one).  `acc` is the reversed
stack of kept elements. -/
def cleanFold (rooted : Bool) (acc : List (List Char)) (c : List Char) :
    List (List Char) :=
  if c = [] ∨ c = ['.'] then acc
  else if c = ['.', '.'] then
    match acc with
    | [] => if rooted then [] else [['.', '.']]
    | a :: rest => if a = ['.', '.'] then c :: a :: rest else rest
  else c :: acc

/-- Interleave path elements with `'/'` (Go `strings.Join(elems, "/")`). -/
def joinComps : List (List Char) → List Char
  | [] => []
  | [c] => c
  | c :: rest => c ++ '/' :: joinComps rest

/-- Model of Go `path/filepath.Clean` (unix): shortest lexically equivalent
path — collapse separators, drop `"."`, resolve `".."` against preceding
elements, return `"."` for an empty result. -/
def clean (s : String) : String :=
  if s.data = [] then "."
  else
    let rooted : Bool := s.data.head? = some '/'
    let stack := ((splitSlash s.data).foldl (cleanFold rooted) []).reverse
    let out := joinComps stack
    if rooted then String.mk ('/' :: out)
    else if out = [] then "." else String.mk out

/-- Model of Go `path/filepath.Join` restricted to two elements, as used by
the code: skip a leading empty element, otherwise join with `'/'` and
`Clean`. -/
def goJoin (a b : String) : String :=
  if a = "" then (if b = "" then "" else clean b)
  else clean (String.mk (a.data ++ '/' :: b.data))

/-! ## `ConvertFile` (package `convert`) -/

/-- `ConvertFileOpts` of the source: options for a single-file conversion. -/
structure ConvertFileOpts where
  Command : String
  Path : String
  TargetExtension : String
  OutDir : String
  DeleteOriginal : Bool
  Quiet : Bool
deriving DecidableEq, Repr

/-- `fileActionType` of the source: the action a `ConvertFile` call resulted
in. -/
inductive fileActionType where
  | fileActionFail
  | fileActionConvert
  | fileActionMove
  | fileActionSkip
deriving DecidableEq, Repr

/-- The per-file errors `ConvertFile` wraps with `fmt.Errorf`, kept
structured so that the tagging path is visible. -/
inductive FileError where
  | moveFailed (path underlying : String)
  | copyFailed (path underlying : String)
  | templateFailed (path underlying : String)
  | convertFailed (path underlying : String)
  | deleteFailed (path underlying : String)
deriving DecidableEq, Repr

/-- Filesystem / subprocess mutations attempted by `ConvertFile`. -/
inductive Effect where
  | renameFS (src dst : String)
  | copyFS (src dst : String)
  | runCmdFS (cmd : String)
  | removeFS (p : String)
deriving DecidableEq, Repr

/-- Outcomes of the external collaborators for one `ConvertFile` call:
`os.Rename`, `copyFile`, `generateConvertCommand` (the `text/template`
rendering, which on success yields the concrete command string), `runCommand`
and `os.Remove`.  `none` (resp. `.ok`) means success; `some e` carries the Go
error's message. -/
structure FSEnv where
  renameResult : Option String
  copyResult : Option String
  templateResult : Except String String
  runResult : Option String
  removeResult : Option String
deriving Repr

/-- The output path `ConvertFile` computes:
`filepath.Join(OutDir, strings.TrimSuffix(filepath.Base(Path), ext) + TargetExtension)`. -/
def outputPathOf (o : ConvertFileOpts) : String :=
  goJoin o.OutDir (trimSuffix (goBase o.Path) (goExt o.Path) ++ o.TargetExtension)

/-- `ConvertFile` of the source, returning the `(error, fileActionType)` pair
together with the trace of attempted filesystem/subprocess effects. -/
def ConvertFile (o : ConvertFileOpts) (env : FSEnv) :
    Option FileError × fileActionType × List Effect :=
  let ext := goExt o.Path
  let outPath := outputPathOf o
  if ext = o.TargetExtension then
    if o.Path = outPath then (none, .fileActionSkip, [])
    else if o.DeleteOriginal then
      match env.renameResult with
      | some e => (some (.moveFailed o.Path e), .fileActionFail, [.renameFS o.Path outPath])
      | none => (none, .fileActionMove, [.renameFS o.Path outPath])
    else
      match env.copyResult with
      | some e => (some (.copyFailed o.Path e), .fileActionFail, [.copyFS o.Path outPath])
      | none => (none, .fileActionMove, [.copyFS o.Path outPath])
  else
    match env.templateResult with
    | .error e => (some (.templateFailed o.Path e), .fileActionFail, [])
    | .ok command =>
      match env.runResult with
      | some e => (some (.convertFailed o.Path e), .fileActionFail, [.runCmdFS command])
      | none =>
        if o.DeleteOriginal then
          match env.removeResult with
          | some e =>
            (some (.deleteFailed o.Path e), .fileActionFail,
              [.runCmdFS command, .removeFS o.Path])
          | none =>
            (none, .fileActionConvert, [.runCmdFS command, .removeFS o.Path])
        else (none, .fileActionConvert, [.runCmdFS command])

/-- The classification decision of the spec's data model. -/
inductive Decision where
  | Convert
  | Relocate
  | Skip
deriving DecidableEq, Repr

/-- The top-level branch `ConvertFile` takes, as a decision: the
`ext == TargetExtension` branch is the relocate (move/copy) path, the other
branch the external-transcode path. -/
def convertFileDecision (o : ConvertFileOpts) : Decision :=
  if goExt o.Path = o.TargetExtension then Decision.Relocate else Decision.Convert

/-! ## `ConvertDir` (dir.go of package `convert`) -/

/-- `ConvertDirOpts` of the source. -/
structure ConvertDirOpts where
  Command : String
  Dir : String
  Sources : List String
  Except : List String
  TargetExtension : String
  OutDir : String
  DeleteOriginal : Bool
  Quiet : Bool
deriving DecidableEq, Repr

/-- The eligibility check in the goroutine body of `ConvertDir`:

```
var shouldProcess bool
if slices.Contains(convertDirOpts.Sources, convertDirOpts.TargetExtension) {
        shouldProcess = true
} else if !slices.Contains(convertDirOpts.Except, convertDirOpts.TargetExtension) {
        shouldProcess = true
}
```

The goroutine has the candidate's `inputPath` in scope (kept as the parameter
here) but the check never consults it: both `slices.Contains` calls test the
configured `TargetExtension` against the lists. -/
def shouldProcessFile (o : ConvertDirOpts) (_path : String) : Bool :=
  o.Sources.contains o.TargetExtension || !(o.Except.contains o.TargetExtension)

/-- The `ConvertFileOpts` that `ConvertDir` builds for a dispatched path. -/
def mkConvertFileOpts (o : ConvertDirOpts) (path : String) : ConvertFileOpts :=
  ⟨o.Command, path, o.TargetExtension, o.OutDir, o.DeleteOriginal, o.Quiet⟩

/-- One entry presented to the `filepath.WalkDir` callback: either the walk
reports an access error for a path (non-nil `err` argument), or a directory,
or a regular file. -/
inductive WalkEntry where
  | errEntry (path underlying : String)
  | dirEntry (path : String)
  | fileEntry (path : String)
deriving DecidableEq, Repr

/-- An entry of `collectedErrors`: either the callback's
`fmt.Errorf("error accessing %s: %w", path, err)` for a walk error, or an
error returned by `ConvertFile`.  (The post-walk
`fmt.Errorf("error walking directory: %w", err)` branch is dead code: the
callback always returns `nil`, so `filepath.WalkDir` always returns `nil`.) -/
inductive CollectedError where
  | accessError (path underlying : String)
  | fileError (e : FileError)
deriving DecidableEq, Repr

/-- The four outcome counters of `ConvertDir`. -/
structure RunStats where
  processedFiles : Nat
  skippedFiles : Nat
  movedFiles : Nat
  failedFiles : Nat
deriving DecidableEq, Repr

/-- Increment the counter selected by the `switch fileAction` statement. -/
def bumpStats (s : RunStats) : fileActionType → RunStats
  | .fileActionFail => { s with failedFiles := s.failedFiles + 1 }
  | .fileActionConvert => { s with processedFiles := s.processedFiles + 1 }
  | .fileActionMove => { s with movedFiles := s.movedFiles + 1 }
  | .fileActionSkip => { s with skippedFiles := s.skippedFiles + 1 }

/-- The shared state of a run: the error list and the counters. -/
structure RunState where
  collectedErrors : List CollectedError
  stats : RunStats
deriving DecidableEq, Repr

/-- Effect of one walk entry on the shared state, read off the `WalkDir`
callback and the goroutine body it spawns: a walk error is appended by
`addError` and the callback returns `nil`; directories are ignored; a regular
file runs the eligibility check and, when eligible, `ConvertFile`, appending
its error (if any) and bumping exactly one counter; an ineligible file changes
nothing.  Counter increments and list appends commute, so this sequential fold
computes the final counters and the error multiset of any concurrent
interleaving. -/
def walkStep (o : ConvertDirOpts) (env : String → FSEnv) (st : RunState) :
    WalkEntry → RunState
  | .errEntry p u =>
    { st with collectedErrors := st.collectedErrors ++ [CollectedError.accessError p u] }
  | .dirEntry _ => st
  | .fileEntry p =>
    if shouldProcessFile o p then
      let r := ConvertFile (mkConvertFileOpts o p) (env p)
      let st1 :=
        match r.1 with
        | some e =>
          { st with collectedErrors := st.collectedErrors ++ [CollectedError.fileError e] }
        | none => st
      { st1 with stats := bumpStats st1.stats r.2.1 }
    else st

/-- Initial shared state. -/
def initRunState : RunState := ⟨[], ⟨0, 0, 0, 0⟩⟩

/-- The aggregate result of `ConvertDir`'s walk over a list of entries. -/
def convertDirRun (o : ConvertDirOpts) (env : String → FSEnv)
    (entries : List WalkEntry) : RunState :=
  entries.foldl (walkStep o env) initRunState

/-- `ConvertDir` after `wg.Wait()`: when errors were collected it logs them
and returns `fmt.Errorf("completed with %d errors", n)` (modelled as
`some n`) without printing the summary block; otherwise it returns `nil` and
prints the per-category summary unless `Quiet`.  The `Bool` component records
whether the summary block was printed. -/
def ConvertDir (o : ConvertDirOpts) (env : String → FSEnv)
    (entries : List WalkEntry) : Option Nat × Bool × RunState :=
  let st := convertDirRun o env entries
  if st.collectedErrors.length > 0 then (some st.collectedErrors.length, false, st)
  else (none, !o.Quiet, st)

/-- Sum of the four outcome counters. -/
def sumStats (s : RunStats) : Nat :=
  s.processedFiles + s.skippedFiles + s.movedFiles + s.failedFiles

/-- Number of regular files among the walk entries. -/
def countRegularFiles (entries : List WalkEntry) : Nat :=
  entries.countP fun e =>
    match e with
    | .fileEntry _ => true
    | _ => false

/-- Number of regular files the eligibility check lets through. -/
def countEligibleFiles (o : ConvertDirOpts) (entries : List WalkEntry) : Nat :=
  entries.countP fun e =>
    match e with
    | .fileEntry p => shouldProcessFile o p
    | _ => false

/-! ### The per-file goroutine, as an event trace

The `WalkDir` callback spawns one goroutine per regular file.  Its body, in
order: `sem <- struct{}{}` (acquire a pool slot; its release is deferred to
the end of the body), the eligibility check, and — only when eligible — the
`ConvertFile` call and the recording of its outcome. -/

/-- Events of one dispatched goroutine of `ConvertDir`. -/
inductive DirEvent where
  | acquire
  | classify (eligible : Bool)
  | callConvertFile (path : String)
  | recordOutcome (a : fileActionType)
  | release
deriving DecidableEq, Repr

/-- The event trace of the goroutine `ConvertDir` spawns for a regular file,
read off its body in program order. -/
def dirGoroutineTrace (o : ConvertDirOpts) (env : String → FSEnv)
    (path : String) : List DirEvent :=
  DirEvent.acquire ::
  DirEvent.classify (shouldProcessFile o path) ::
  ((if shouldProcessFile o path then
      [DirEvent.callConvertFile path,
       DirEvent.recordOutcome (ConvertFile (mkConvertFileOpts o path) (env path)).2.1]
    else []) ++ [DirEvent.release])

/-! ### The worker pool, as a small-step scheduler

`ConvertDir` bounds concurrency with a channel semaphore of capacity
`runtime.NumCPU()`: each goroutine sends into `sem` before working (blocking
while the channel is full) and its deferred receive releases the slot when the
body returns, on the failure paths included.  We model the pool as a
transition system: each spawned goroutine is `waiting` (before its send),
`holding` (slot held, executing; the flag records whether its execution will
fail, which the release path ignores), or `finishedW`; `semCount` is the
number of buffered elements in `sem`. -/

/-- Phase of one spawned goroutine. -/
inductive WStatus where
  | waiting
  | holding (failed : Bool)
  | finishedW (failed : Bool)
deriving DecidableEq, Repr

/-- Scheduler state: the goroutines' phases and the semaphore channel's
buffered-element count. -/
structure PoolState where
  workers : List WStatus
  semCount : Nat
deriving DecidableEq, Repr

/-- Is a goroutine currently holding a pool slot (execution in flight)? -/
def isHolding : WStatus → Bool
  | .holding _ => true
  | _ => false

/-- Number of executions in flight. -/
def inFlight (s : PoolState) : Nat := s.workers.countP isHolding

/-- Initial state: all spawned goroutines before their `sem <-` send, the
channel empty. -/
def initPool (numFiles : Nat) : PoolState :=
  ⟨List.replicate numFiles WStatus.waiting, 0⟩

/-- One scheduler step, with semaphore capacity `capacity`:
a waiting goroutine's `sem <- struct{}{}` completes only while the channel
holds fewer than `capacity` elements; a holding goroutine's deferred
`<-sem` is always enabled, whatever its execution's outcome. -/
inductive PoolStep (capacity : Nat) : PoolState → PoolState → Prop where
  | acquire (s : PoolState) (i : Nat) (failed : Bool)
      (hw : s.workers[i]? = some WStatus.waiting)
      (hc : s.semCount < capacity) :
      PoolStep capacity s ⟨s.workers.set i (WStatus.holding failed), s.semCount + 1⟩
  | release (s : PoolState) (i : Nat) (failed : Bool)
      (hw : s.workers[i]? = some (WStatus.holding failed)) :
      PoolStep capacity s ⟨s.workers.set i (WStatus.finishedW failed), s.semCount - 1⟩

/-- States reachable by the scheduler from the initial state. -/
def PoolReach (capacity numFiles : Nat) (s : PoolState) : Prop :=
  Relation.ReflTransGen (PoolStep capacity) (initPool numFiles) s

/-! ## Concrete inputs used by counterexamples and witnesses -/

/-- An environment in which every external collaborator succeeds. -/
def envAllOK : String → FSEnv := fun _ => ⟨none, none, Except.ok "cmd", none, none⟩

/-- An environment in which the external transcode invocation fails. -/
def envRunFails : String → FSEnv :=
  fun _ => ⟨none, none, Except.ok "cmd", some "exit status 1", none⟩

/-- Allow-list `[".wav"]`, deny-list `[".mp3"]`, target `".mp3"`. -/
def optsAllowWav : ConvertDirOpts :=
  ⟨"cmd", "music", [".wav"], [".mp3"], ".mp3", "out", false, false⟩

/-- No allow-list, deny-list `[".txt"]`, target `".mp3"`. -/
def optsDenyTxt : ConvertDirOpts :=
  ⟨"cmd", "music", [], [".txt"], ".mp3", "out", false, false⟩

/-- No allow-list, deny-list `[".mp3"]`, target `".mp3"`: the check makes
every file ineligible. -/
def optsDenyTarget : ConvertDirOpts :=
  ⟨"cmd", "music", [], [".mp3"], ".mp3", "out", false, false⟩

/-- No filter lists at all: every file eligible. -/
def optsNoFilters : ConvertDirOpts :=
  ⟨"cmd", "music", [], [], ".mp3", "out", false, false⟩

/-! ## `ConvertFile` lemmas and claims -/

/-- `ConvertFile` returns a non-nil error exactly on the paths that return
`fileActionFail`. -/
theorem convertFile_error_iff_fail (o : ConvertFileOpts) (env : FSEnv) :
    (ConvertFile o env).1 ≠ none ↔
      (ConvertFile o env).2.1 = fileActionType.fileActionFail := by
  simp only [ConvertFile]
  by_cases h1 : goExt o.Path = o.TargetExtension
  · rw [if_pos h1]
    by_cases h2 : o.Path = outputPathOf o
    · rw [if_pos h2]; simp
    · rw [if_neg h2]
      by_cases h3 : o.DeleteOriginal = true <;>
        cases hr : env.renameResult <;>
        cases hc : env.copyResult <;>
        simp [h3]
  · rw [if_neg h1]
    cases ht : env.templateResult <;>
      cases hrun : env.runResult <;>
      by_cases h3 : o.DeleteOriginal = true <;>
      cases hrem : env.removeResult <;>
      simp [h3]

/-- C5: for every file candidate processed by `ConvertFile`, if its extension
equals the configured target extension the decision is Relocate — the call
never invokes the external transcoder and never reports `fileActionConvert` —
and if its extension differs the decision is Convert — the call never renames
or copies and never reports `fileActionMove` or `fileActionSkip`. -/
theorem convertFile_decision_by_extension (o : ConvertFileOpts) (env : FSEnv) :
    (goExt o.Path = o.TargetExtension →
      convertFileDecision o = Decision.Relocate ∧
      (∀ c, Effect.runCmdFS c ∉ (ConvertFile o env).2.2) ∧
      (ConvertFile o env).2.1 ≠ fileActionType.fileActionConvert) ∧
    (goExt o.Path ≠ o.TargetExtension →
      convertFileDecision o = Decision.Convert ∧
      (∀ src dst, Effect.renameFS src dst ∉ (ConvertFile o env).2.2 ∧
                  Effect.copyFS src dst ∉ (ConvertFile o env).2.2) ∧
      (ConvertFile o env).2.1 ≠ fileActionType.fileActionMove ∧
      (ConvertFile o env).2.1 ≠ fileActionType.fileActionSkip) := by
  constructor
  · intro h
    refine ⟨by simp [convertFileDecision, h], ?_, ?_⟩ <;>
      · simp only [ConvertFile]
        rw [if_pos h]
        by_cases h2 : o.Path = outputPathOf o
        · rw [if_pos h2]; simp
        · rw [if_neg h2]
          by_cases h3 : o.DeleteOriginal = true <;>
            cases hr : env.renameResult <;>
            cases hc : env.copyResult <;>
            simp [h3]
  · intro h
    refine ⟨by simp [convertFileDecision, h], ?_, ?_, ?_⟩ <;>
      · simp only [ConvertFile]
        rw [if_neg h]
        cases ht : env.templateResult <;>
          cases hrun : env.runResult <;>
          by_cases h3 : o.DeleteOriginal = true <;>
          cases hrem : env.removeResult <;>
          simp [h3]

/-- Witness for C5, at a file already carrying the target extension. -/
theorem convertFile_decision_by_extension_witness :
    convertFileDecision ⟨"cmd", "b.mp3", ".mp3", "out", false, false⟩ = Decision.Relocate ∧
    (∀ c, Effect.runCmdFS c ∉
      (ConvertFile ⟨"cmd", "b.mp3", ".mp3", "out", false, false⟩ (envAllOK "b.mp3")).2.2) ∧
    (ConvertFile ⟨"cmd", "b.mp3", ".mp3", "out", false, false⟩ (envAllOK "b.mp3")).2.1
      ≠ fileActionType.fileActionConvert :=
  (convertFile_decision_by_extension ⟨"cmd", "b.mp3", ".mp3", "out", false, false⟩
    (envAllOK "b.mp3")).1 (by decide)

/-- C6: a file whose extension equals the target and whose path equals the
computed output path yields `fileActionSkip` with a nil error and no attempted
filesystem mutation. -/
theorem convertFile_same_path_skips (o : ConvertFileOpts) (env : FSEnv)
    (h1 : goExt o.Path = o.TargetExtension) (h2 : o.Path = outputPathOf o) :
    ConvertFile o env = (none, fileActionType.fileActionSkip, []) := by
  simp only [ConvertFile]
  rw [if_pos h1, if_pos h2]

/-- Witness for C6: `a.mp3` with output directory `"."` computes the output
path `a.mp3`, its own location. -/
theorem convertFile_same_path_skips_witness :
    goExt "a.mp3" = ".mp3" ∧
    "a.mp3" = outputPathOf ⟨"cmd", "a.mp3", ".mp3", ".", false, false⟩ ∧
    ConvertFile ⟨"cmd", "a.mp3", ".mp3", ".", false, false⟩ (envAllOK "a.mp3")
      = (none, fileActionType.fileActionSkip, []) :=
  ⟨by decide, by decide,
    convertFile_same_path_skips ⟨"cmd", "a.mp3", ".mp3", ".", false, false⟩
      (envAllOK "a.mp3") (by decide) (by decide)⟩

/-! ## Classifier claims -/

/-- C1: evaluation at a failing input.  With allow-list `[".wav"]` (non-empty)
and deny-list `[".mp3"]`, target `".mp3"`, the file `a.wav` has its extension
in the allow-list, yet the eligibility check of `ConvertDir` rejects it (the
check compares the target extension, not the candidate's, against the
lists), so the file is never dispatched to `ConvertFile`. -/
theorem convertDir_allowlisted_file_not_dispatched :
    goExt "a.wav" ∈ optsAllowWav.Sources ∧
    optsAllowWav.Sources ≠ [] ∧
    shouldProcessFile optsAllowWav "a.wav" = false ∧
    convertDirRun optsAllowWav envAllOK [WalkEntry.fileEntry "a.wav"] = initRunState := by
  decide

/-- C2: evaluation at a failing input.  With no allow-list and deny-list
`[".txt"]`, target `".mp3"`, the file `note.txt` has its extension in the
deny-list, yet the eligibility check accepts it (the target `".mp3"` is not in
the deny-list) and the file is dispatched for conversion instead of being
skipped. -/
theorem convertDir_denylisted_file_dispatched :
    goExt "note.txt" ∈ optsDenyTxt.Except ∧
    optsDenyTxt.Sources = [] ∧
    shouldProcessFile optsDenyTxt "note.txt" = true ∧
    (convertDirRun optsDenyTxt envAllOK [WalkEntry.fileEntry "note.txt"]).stats.processedFiles
      = 1 := by
  decide

/-- C10: the eligibility decision of `ConvertDir` is a function of the
configuration alone — it tests the target extension against the `Sources` and
`Except` lists — so any two candidates receive the identical decision. -/
theorem convertDir_eligibility_config_only (o : ConvertDirOpts) (p₁ p₂ : String) :
    shouldProcessFile o p₁
      = (o.Sources.contains o.TargetExtension || !(o.Except.contains o.TargetExtension)) ∧
    shouldProcessFile o p₁ = shouldProcessFile o p₂ :=
  ⟨rfl, rfl⟩

/-! ## Decomposing the walk fold -/

/-- The errors one walk entry contributes to `collectedErrors` (independent of
the state it is applied to). -/
def entryErrors (o : ConvertDirOpts) (env : String → FSEnv) :
    WalkEntry → List CollectedError
  | .errEntry p u => [CollectedError.accessError p u]
  | .dirEntry _ => []
  | .fileEntry p =>
    if shouldProcessFile o p then
      match (ConvertFile (mkConvertFileOpts o p) (env p)).1 with
      | some e => [CollectedError.fileError e]
      | none => []
    else []

/-- The effect of one walk entry on the counters alone. -/
def statsStep (o : ConvertDirOpts) (env : String → FSEnv) (s : RunStats) :
    WalkEntry → RunStats
  | .errEntry _ _ => s
  | .dirEntry _ => s
  | .fileEntry p =>
    if shouldProcessFile o p then
      bumpStats s (ConvertFile (mkConvertFileOpts o p) (env p)).2.1
    else s

/-- One step of the walk appends that entry's errors and applies its counter
effect. -/
theorem walkStep_decomp (o : ConvertDirOpts) (env : String → FSEnv)
    (st : RunState) (e : WalkEntry) :
    (walkStep o env st e).collectedErrors = st.collectedErrors ++ entryErrors o env e ∧
    (walkStep o env st e).stats = statsStep o env st.stats e := by
  cases e with
  | errEntry p u => simp [walkStep, entryErrors, statsStep]
  | dirEntry p => simp [walkStep, entryErrors, statsStep]
  | fileEntry p =>
    by_cases hp : shouldProcessFile o p
    · cases hr : (ConvertFile (mkConvertFileOpts o p) (env p)).1 <;>
        simp [walkStep, entryErrors, statsStep, hp, hr]
    · simp [walkStep, entryErrors, statsStep, hp]

/-- The walk fold splits: the final error list is the initial one followed by
each entry's contribution in walk order, and the final counters are the fold
of the per-entry counter effects. -/
theorem run_decomp (o : ConvertDirOpts) (env : String → FSEnv) :
    ∀ (es : List WalkEntry) (st : RunState),
    (es.foldl (walkStep o env) st).collectedErrors
      = st.collectedErrors ++ (es.map (entryErrors o env)).flatten ∧
    (es.foldl (walkStep o env) st).stats
      = es.foldl (statsStep o env) st.stats := by
  intro es
  induction es with
  | nil => intro st; simp
  | cons e es ih =>
    intro st
    rcases walkStep_decomp o env st e with ⟨h1, h2⟩
    rcases ih (walkStep o env st e) with ⟨ih1, ih2⟩
    refine ⟨?_, ?_⟩
    · rw [List.foldl_cons, ih1, h1, List.map_cons, List.flatten_cons, List.append_assoc]
    · rw [List.foldl_cons, ih2, h2, List.foldl_cons]

/-- `bumpStats` adds exactly one to the sum of the counters. -/
theorem sumStats_bumpStats (s : RunStats) (a : fileActionType) :
    sumStats (bumpStats s a) = sumStats s + 1 := by
  cases a <;> simp [bumpStats, sumStats] <;> omega

/-- Folding the counter effects adds one outcome per eligible file. -/
theorem statsFold_sum (o : ConvertDirOpts) (env : String → FSEnv) :
    ∀ (es : List WalkEntry) (s0 : RunStats),
    sumStats (es.foldl (statsStep o env) s0) = sumStats s0 + countEligibleFiles o es := by
  intro es
  induction es with
  | nil => intro s0; simp [countEligibleFiles]
  | cons e es ih =>
    intro s0
    rw [List.foldl_cons, ih]
    cases e with
    | errEntry p u => simp [statsStep, countEligibleFiles, List.countP_cons]
    | dirEntry p => simp [statsStep, countEligibleFiles, List.countP_cons]
    | fileEntry p =>
      by_cases hp : shouldProcessFile o p <;>
        simp [statsStep, countEligibleFiles, List.countP_cons, hp, sumStats_bumpStats] <;>
        omega

/-! ## C3: the outcome-sum invariant -/

/-- C3 fails on the code: with no allow-list and the target extension in the
deny-list, the single visited regular file is classified ineligible and no
counter at all is recorded, so the sum of the four outcome counters (0) is not
the number of regular files visited (1). -/
theorem convertDir_outcome_sum_ne_visited :
    sumStats (convertDirRun optsDenyTarget envAllOK [WalkEntry.fileEntry "a.wav"]).stats
      ≠ countRegularFiles [WalkEntry.fileEntry "a.wav"] := by
  decide

/-- C3 amended: for every run, the sum of the four outcome counters equals the
number of regular files the eligibility check lets through; each such file
contributes exactly one outcome, while ineligible files and walk errors
contribute none. -/
theorem convertDir_outcome_sum_eq_eligible (o : ConvertDirOpts)
    (env : String → FSEnv) (entries : List WalkEntry) :
    sumStats (convertDirRun o env entries).stats = countEligibleFiles o entries := by
  have h := (run_decomp o env entries initRunState).2
  rw [convertDirRun, h, statsFold_sum]
  simp [initRunState, sumStats]

/-! ## C7: failure signalling -/

/-- Each walk entry keeps `failedFiles ≤ collectedErrors.length`: a walk error
appends an error without touching the counters, and a dispatched file bumps
`failedFiles` only together with the error `ConvertFile` returns exactly on
its failing paths. -/
theorem failed_le_errors (o : ConvertDirOpts) (env : String → FSEnv) :
    ∀ (es : List WalkEntry) (st : RunState),
    st.stats.failedFiles ≤ st.collectedErrors.length →
    (es.foldl (walkStep o env) st).stats.failedFiles
      ≤ (es.foldl (walkStep o env) st).collectedErrors.length := by
  intro es
  induction es with
  | nil => intro st h; exact h
  | cons e es ih =>
    intro st h
    rw [List.foldl_cons]
    apply ih
    cases e with
    | errEntry p u => simp [walkStep, List.length_append]; omega
    | dirEntry p => exact h
    | fileEntry p =>
      by_cases hp : shouldProcessFile o p
      · cases hr : (ConvertFile (mkConvertFileOpts o p) (env p)).1 with
        | none =>
          have hnf : (ConvertFile (mkConvertFileOpts o p) (env p)).2.1
              ≠ fileActionType.fileActionFail := by
            intro hf
            have hc := (convertFile_error_iff_fail (mkConvertFileOpts o p) (env p)).mpr hf
            rw [hr] at hc
            exact hc rfl
          cases ha : (ConvertFile (mkConvertFileOpts o p) (env p)).2.1 with
          | fileActionFail => exact absurd ha hnf
          | fileActionConvert => simp [walkStep, hp, hr, ha, bumpStats]; omega
          | fileActionMove => simp [walkStep, hp, hr, ha, bumpStats]; omega
          | fileActionSkip => simp [walkStep, hp, hr, ha, bumpStats]; omega
        | some e =>
          cases ha : (ConvertFile (mkConvertFileOpts o p) (env p)).2.1 <;>
            simp [walkStep, hp, hr, ha, bumpStats, List.length_append] <;> omega
      · simp [walkStep, hp]; exact h

/-- C7 fails on the code: a run with one failing conversion returns an error,
but the per-category summary block is not printed — `ConvertDir` logs the
error list and returns before the summary. -/
theorem convertDir_error_run_summary_suppressed :
    (ConvertDir optsNoFilters envRunFails [WalkEntry.fileEntry "a.wav"]).1 ≠ none ∧
    optsNoFilters.Quiet = false ∧
    (ConvertDir optsNoFilters envRunFails [WalkEntry.fileEntry "a.wav"]).2.1 = false := by
  decide

/-- C7 amended: `ConvertDir` returns an error exactly when the collected-error
list is non-empty (every `Failed` outcome contributes an error to it, so
`failedFiles` never exceeds its length); a run over no entries collects no
errors and is reported successful; but on the error path the per-category
summary block is not printed — it is printed exactly on the error-free,
non-quiet path. -/
theorem convertDir_error_iff_collected (o : ConvertDirOpts) (env : String → FSEnv)
    (entries : List WalkEntry) :
    ((ConvertDir o env entries).1 ≠ none ↔
      (convertDirRun o env entries).collectedErrors ≠ []) ∧
    ((ConvertDir o env entries).2.1 = true ↔
      ((convertDirRun o env entries).collectedErrors = [] ∧ o.Quiet = false)) ∧
    (convertDirRun o env entries).stats.failedFiles
      ≤ (convertDirRun o env entries).collectedErrors.length ∧
    (convertDirRun o env []).collectedErrors = [] ∧
    (ConvertDir o env []).1 = none := by
  refine ⟨?_, ?_, ?_, by simp [convertDirRun, initRunState],
    by simp [ConvertDir, convertDirRun, initRunState]⟩
  · rw [ConvertDir]
    by_cases h : (convertDirRun o env entries).collectedErrors = []
    · simp [h]
    · have hl : (convertDirRun o env entries).collectedErrors.length > 0 :=
        List.length_pos.mpr h
      simp [h, hl]
  · rw [ConvertDir]
    by_cases h : (convertDirRun o env entries).collectedErrors = []
    · simp [h]
    · have hl : (convertDirRun o env entries).collectedErrors.length > 0 :=
        List.length_pos.mpr h
      simp [h, hl]
  · exact failed_le_errors o env entries initRunState (by simp [initRunState])

/-! ## C8: traversal errors do not abort the run -/

/-- C8 fails on the code in one respect: a walk error is not recorded as a
`Failed` outcome — no outcome counter moves (all four stay zero here); the
error is instead appended to the collected-error list, tagged with the
path. -/
theorem convertDir_walk_error_no_failed_counter :
    (convertDirRun optsNoFilters envAllOK
        [WalkEntry.errEntry "locked" "permission denied"]).stats.failedFiles = 0 ∧
    sumStats (convertDirRun optsNoFilters envAllOK
        [WalkEntry.errEntry "locked" "permission denied"]).stats = 0 ∧
    (convertDirRun optsNoFilters envAllOK
        [WalkEntry.errEntry "locked" "permission denied"]).collectedErrors
      = [CollectedError.accessError "locked" "permission denied"] := by
  decide

/-- C8 amended: a directory entry that errors during traversal is recorded in
the collected-error list tagged with its path (not as a `Failed` outcome
counter), the walk continues — the outcome counters of the run are exactly
those of the same walk without the erroring entry, so files elsewhere in the
tree are still processed — and the run as a whole is then reported failed. -/
theorem convertDir_walk_error_continues (o : ConvertDirOpts) (env : String → FSEnv)
    (es1 es2 : List WalkEntry) (p u : String) :
    (convertDirRun o env (es1 ++ WalkEntry.errEntry p u :: es2)).stats
      = (convertDirRun o env (es1 ++ es2)).stats ∧
    CollectedError.accessError p u
      ∈ (convertDirRun o env (es1 ++ WalkEntry.errEntry p u :: es2)).collectedErrors ∧
    (ConvertDir o env (es1 ++ WalkEntry.errEntry p u :: es2)).1 ≠ none := by
  have hmem : CollectedError.accessError p u
      ∈ (convertDirRun o env (es1 ++ WalkEntry.errEntry p u :: es2)).collectedErrors := by
    rw [convertDirRun, (run_decomp o env (es1 ++ WalkEntry.errEntry p u :: es2) initRunState).1]
    simp [initRunState]
    exact Or.inr (Or.inl (by simp [entryErrors]))
  refine ⟨?_, hmem, ?_⟩
  · rw [convertDirRun, convertDirRun,
      (run_decomp o env (es1 ++ WalkEntry.errEntry p u :: es2) initRunState).2,
      (run_decomp o env (es1 ++ es2) initRunState).2,
      List.foldl_append, List.foldl_append, List.foldl_cons]
    rfl
  · rw [ConvertDir]
    have h : (convertDirRun o env (es1 ++ WalkEntry.errEntry p u :: es2)).collectedErrors ≠ [] :=
      List.ne_nil_of_mem hmem
    have hl := List.length_pos.mpr h
    simp [hl, if_pos]

/-! ## C4: where the Skip decision happens -/

/-- C4 fails on the code: with the target extension in the deny-list every
candidate is classified Skip, yet the goroutine spawned for such a file still
acquires a worker-pool slot — `sem <- struct{}{}` runs before the eligibility
check. -/
theorem convertDir_skip_decision_acquires_slot :
    shouldProcessFile optsDenyTarget "x.mp3" = false ∧
    DirEvent.acquire ∈ dirGoroutineTrace optsDenyTarget envAllOK "x.mp3" ∧
    (dirGoroutineTrace optsDenyTarget envAllOK "x.mp3").head? = some DirEvent.acquire := by
  decide

/-- C4 amended: every regular file — Skip-classified ones included — is
dispatched as a goroutine whose first event acquires a worker-pool slot; the
classification decision is the second event, made inside the pool, and the
slot release is the last event of the trace. -/
theorem dirGoroutine_acquire_precedes_classify (o : ConvertDirOpts)
    (env : String → FSEnv) (p : String) :
    (dirGoroutineTrace o env p).head? = some DirEvent.acquire ∧
    (dirGoroutineTrace o env p)[1]? = some (DirEvent.classify (shouldProcessFile o p)) ∧
    (dirGoroutineTrace o env p).getLast? = some DirEvent.release := by
  refine ⟨rfl, by simp [dirGoroutineTrace], ?_⟩
  by_cases hp : shouldProcessFile o p <;> simp [dirGoroutineTrace, hp]

/-! ## C9: the worker pool bound -/

/-- Replacing a known element changes `countP` by the predicate's value on
the old and new elements. -/
theorem countP_set_balance {α : Type} (q : α → Bool) :
    ∀ (l : List α) (i : Nat) (a b : α), l[i]? = some a →
    (l.set i b).countP q + (if q a then 1 else 0)
      = l.countP q + (if q b then 1 else 0) := by
  intro l
  induction l with
  | nil => intro i a b h; simp at h
  | cons x xs ih =>
    intro i a b h
    cases i with
    | zero =>
      simp at h
      subst h
      simp [List.countP_cons]
      try omega
    | succ n =>
      simp at h
      have hx := ih n a b h
      simp [List.countP_cons]
      try omega

/-- No goroutine of the initial state holds a slot. -/
theorem inFlight_initPool (k : Nat) : inFlight (initPool k) = 0 := by
  induction k with
  | zero => rfl
  | succ n ih =>
    simp only [inFlight, initPool, List.replicate, List.countP_cons, isHolding] at ih ⊢
    simp [ih]

/-- One scheduler step preserves the semaphore invariant: the channel's
buffered count equals the number of in-flight executions, and stays within
the capacity. -/
theorem poolStep_preserves {capacity : Nat} {s s' : PoolState}
    (h : PoolStep capacity s s')
    (hinv : s.semCount = inFlight s ∧ inFlight s ≤ capacity) :
    s'.semCount = inFlight s' ∧ inFlight s' ≤ capacity := by
  cases h with
  | acquire i failed hw hc =>
    have hb := countP_set_balance isHolding s.workers i WStatus.waiting
      (WStatus.holding failed) hw
    simp [isHolding] at hb
    simp only [inFlight] at hinv ⊢
    omega
  | release i failed hw =>
    have hb := countP_set_balance isHolding s.workers i (WStatus.holding failed)
      (WStatus.finishedW failed) hw
    simp [isHolding] at hb
    simp only [inFlight] at hinv ⊢
    omega

/-- The semaphore invariant holds in every reachable state. -/
theorem poolReach_invariant (capacity numFiles : Nat) (s : PoolState)
    (h : PoolReach capacity numFiles s) :
    s.semCount = inFlight s ∧ inFlight s ≤ capacity := by
  have h' : Relation.ReflTransGen (PoolStep capacity) (initPool numFiles) s := h
  clear h
  induction h' with
  | refl => exact ⟨(inFlight_initPool numFiles).symm, by simp [inFlight_initPool]⟩
  | tail hsteps hstep ih => exact poolStep_preserves hstep ih

/-- C9: in every state the worker-pool scheduler can reach, at most
`capacity` (= `runtime.NumCPU()`) executions hold a slot at once, and any
goroutine holding a slot — its execution's failure notwithstanding — can
always take its deferred release step, finishing and freeing the slot. -/
theorem convertDir_pool_in_flight_bounded (capacity numFiles : Nat)
    (s : PoolState) (h : PoolReach capacity numFiles s) :
    inFlight s ≤ capacity ∧
    ∀ (i : Nat) (failed : Bool), s.workers[i]? = some (WStatus.holding failed) →
      PoolStep capacity s
        ⟨s.workers.set i (WStatus.finishedW failed), s.semCount - 1⟩ :=
  ⟨(poolReach_invariant capacity numFiles s h).2,
   fun i failed hw => PoolStep.release s i failed hw⟩

/-- Witness for C9: with capacity 1 and two spawned goroutines, the state
after the first goroutine's failing acquisition is reachable, its in-flight
count respects the bound, and the failed holder can still release. -/
theorem convertDir_pool_in_flight_bounded_witness :
    inFlight ⟨[WStatus.holding true, WStatus.waiting], 1⟩ ≤ 1 ∧
    PoolStep 1 ⟨[WStatus.holding true, WStatus.waiting], 1⟩
      ⟨[WStatus.finishedW true, WStatus.waiting], 0⟩ := by
  have hstep : PoolStep 1 (initPool 2) ⟨[WStatus.holding true, WStatus.waiting], 1⟩ := by
    have h := @PoolStep.acquire 1 (initPool 2) 0 true (by rfl) (by decide)
    exact h
  have hreach : PoolReach 1 2 ⟨[WStatus.holding true, WStatus.waiting], 1⟩ :=
    Relation.ReflTransGen.single hstep
  have h := convertDir_pool_in_flight_bounded 1 2
    ⟨[WStatus.holding true, WStatus.waiting], 1⟩ hreach
  exact ⟨h.1, h.2 0 true rfl⟩

end Cac
